import Mathlib

/-!
Shallow embedding of `src/generator.py` (class `Generator`, a Keras-style
batch data generator) and verification of its specification.

Modelling conventions:
* Python lists become Lean `List`s; machine floats on pixel data become `ℚ`
  (the arithmetic in the source is exact on the representative inputs
  considered, and `ℚ` keeps every statement decidable/provable exactly).
* Fallible Python code (exceptions) becomes `Except PyError`.
* External collaborators (the filesystem, the PIL decoder, the cv2
  interpolation kernel, numpy's seeded shuffle, sklearn's one-hot encoder)
  are modelled from their documented contracts, since their code is not part
  of this repository; each such definition carries a comment saying so.
-/

namespace Raytune

/-- The Python exception kinds that the generator can raise. -/
inductive PyError where
  | fileNotFoundError
  | notADirectoryError
  | valueError
  | indexError
  | assertionError
deriving DecidableEq

/-- Python `range(start, stop, step)` for a positive `step`:
`[start, start+step, ...]` with `⌈(stop-start)/step⌉` elements. -/
def pyRange (start stop step : Nat) : List Nat :=
  List.range' start ((stop - start + step - 1) / step) step

/-- `Generator.create_image_groups`, lines 59-62: the grouping comprehension
`[[l[x % len(l)] for x in range(i, i+B)] for i in range(0, len(l), B)]`.
`d` is a default element for the (never reached) out-of-bounds case of
`List.getD`; Python indexing at `x % len(l)` is always in bounds for a
nonempty `l`. -/
def create_image_groups (l : List α) (d : α) (B : Nat) : List (List α) :=
  (pyRange 0 l.length B).map (fun i =>
    (pyRange i (i + B) 1).map (fun x => l.getD (x % l.length) d))

/-- Python list subscription `l[index]` with an `Int` index: negative indices
address from the end (`l[len + index]`); anything else out of
`[-len, len)` raises `IndexError`. -/
def pyListGet (l : List γ) (d : γ) (index : Int) : Except PyError γ :=
  let j : Int := if index < 0 then (l.length : Int) + index else index
  if 0 ≤ j ∧ j < (l.length : Int) then Except.ok (l.getD j.toNat d)
  else Except.error PyError.indexError

/-- A decoded image: a height/width/channel shape and a pixel map.
Cells outside the shape are irrelevant (never read by the generator). -/
structure Image where
  h : Nat
  w : Nat
  c : Nat
  px : Nat → Nat → Nat → ℚ

/-- The all-zero, zero-sized image, used as a `getD` default. -/
def zeroImage : Image :=
  { h := 0, w := 0, c := 0, px := fun _ _ _ => 0 }

/-- `image.shape[x]` for `x = 0, 1, 2`. -/
def Image.dim (img : Image) : Nat → Nat
  | 0 => img.h
  | 1 => img.w
  | _ => img.c

/-- `max(image.shape[x] for image in image_group)` (line 108); `0` is a
neutral initial accumulator since shapes are natural numbers, and the
empty-group case is guarded by a `ValueError` in `construct_image_batch`. -/
def maxDim (image_group : List Image) (x : Nat) : Nat :=
  (image_group.map (fun img => img.dim x)).foldl max 0

/-- One numpy slice assignment
`image_batch[i, :img.h, :img.w, :img.c] = img` (line 115), as a functional
update of the batch pixel map `t`. -/
def writeSlot (t : Nat → Nat → Nat → Nat → ℚ) (i : Nat) (img : Image) :
    Nat → Nat → Nat → Nat → ℚ :=
  fun a y x ch =>
    if a = i ∧ y < img.h ∧ x < img.w ∧ ch < img.c then img.px y x ch
    else t a y x ch

/-- The 4-D output of `construct_image_batch`: shape
`(n, h, w, c)` plus the cell values. -/
structure BatchTensor where
  n : Nat
  h : Nat
  w : Nat
  c : Nat
  val : Nat → Nat → Nat → Nat → ℚ

/-- `Generator.construct_image_batch`, lines 106-117. Python `max` over an
empty group raises `ValueError`; a group longer than `batch_size` makes the
copy loop index past the first axis of the zero tensor, an `IndexError`.
Otherwise the result is the zero tensor of shape
`(batch_size, max_h, max_w, max_c)` overwritten slot by slot. -/
def construct_image_batch (batch_size : Nat) (image_group : List Image) :
    Except PyError BatchTensor :=
  match image_group with
  | [] => Except.error PyError.valueError
  | _ :: _ =>
    if image_group.length ≤ batch_size then
      Except.ok
        { n := batch_size
          h := maxDim image_group 0
          w := maxDim image_group 1
          c := maxDim image_group 2
          val := image_group.enum.foldl (fun t p => writeSlot t p.1 p.2)
                   (fun _ _ _ _ => 0) }
    else Except.error PyError.indexError

/-- `Generator.preprocess_image` on a single pixel value (lines 89-91):
cast to float, divide by 127.5, subtract 1. -/
def preprocess_pixel (x : ℚ) : ℚ :=
  x / 127.5 - 1

/-- `Generator.preprocess_image`, lines 80-93: the pixel map applied
element-wise; the shape is unchanged. -/
def preprocess_image (img : Image) : Image :=
  { img with px := fun y x ch => preprocess_pixel (img.px y x ch) }

/-- `Generator.resize_image`, lines 64-78, on the shape level: the scale
factor, the truncated (`int()`) new dimensions, and the returned ratios
`new_h / h` and `new_w / w`. The pixel resampling itself is cv2's
`INTER_AREA` kernel, an external collaborator (see `load_images`). -/
def resize_image (h w : Nat) (min_side_len : Nat) : Nat × Nat × ℚ × ℚ :=
  let im_scale : ℚ :=
    if min h w < min_side_len then
      if h < w then (min_side_len : ℚ) / (h : ℚ) else (min_side_len : ℚ) / (w : ℚ)
    else 1
  let new_h : Nat := ⌊(h : ℚ) * im_scale⌋₊
  let new_w : Nat := ⌊(w : ℚ) * im_scale⌋₊
  (new_h, new_w, (new_h : ℚ) / (h : ℚ), (new_w : ℚ) / (w : ℚ))

/-- Modelled from the spec: sklearn's `OneHotEncoder.transform` on one class
name — the indicator row of `c` over the fitted category list `cats`. -/
def oneHot [DecidableEq α] (cats : List α) (c : α) : List ℚ :=
  cats.map (fun k => if k = c then (1 : ℚ) else 0)

/-- Modelled from the spec: sklearn's `OneHotEncoder.fit` category list
(`lb.categories_[0]`, line 34) — the sorted list of the distinct values
seen, per sklearn's documented behaviour (`numpy.unique`). -/
def categories [LinearOrder α] [DecidableEq α] (cls : List α) : List α :=
  List.insertionSort (· ≤ ·) cls.dedup

/-- The directory tree under `DATASET_PATH` as the generator sees it:
`rootEntries` is `os.listdir(DATASET_PATH)` (`none` when the root path is
missing), and `subEntries c` is `os.listdir` of entry `c` (`none` when that
entry is not a directory). -/
structure FileSystem (α β : Type) where
  rootEntries : Option (List α)
  subEntries : α → Option (List β)

/-- The state set by `load_image_paths_labels`: category list, sample paths
(a path is the pair class-directory × file name) and one-hot label rows. -/
structure LoadResult (α β : Type) where
  classes : List α
  image_paths : List (α × β)
  image_labels : List (List ℚ)

/-- The scan loop of `load_image_paths_labels`, lines 38-42: for each class
directory in listing order, append one `(class, file)` sample per file.
`os.listdir` on a non-directory entry raises `NotADirectoryError`. -/
def collectSamples (sub : α → Option (List β)) : List α → Except PyError (List (α × β))
  | [] => Except.ok []
  | cname :: rest =>
    match sub cname with
    | none => Except.error PyError.notADirectoryError
    | some files =>
      match collectSamples sub rest with
      | Except.error e => Except.error e
      | Except.ok tail => Except.ok (files.map (fun f => (cname, f)) ++ tail)

/-- `Generator.load_image_paths_labels`, lines 29-47. `os.listdir` on a
missing root raises `FileNotFoundError`; sklearn's `fit` and `transform`
raise `ValueError` on zero samples; the final `assert` on line 47 compares
the path and label counts. -/
def load_image_paths_labels [LinearOrder α] [DecidableEq α]
    (fs : FileSystem α β) : Except PyError (LoadResult α β) :=
  match fs.rootEntries with
  | none => Except.error PyError.fileNotFoundError
  | some cls =>
    if cls.isEmpty then Except.error PyError.valueError
    else
      match collectSamples fs.subEntries cls with
      | Except.error e => Except.error e
      | Except.ok pairs =>
        if pairs.isEmpty then Except.error PyError.valueError
        else
          let cats := categories cls
          let labels := pairs.map (fun p => oneHot cats p.1)
          if pairs.length = labels.length then
            Except.ok { classes := cats, image_paths := pairs, image_labels := labels }
          else Except.error PyError.assertionError

/-- Modelled from the spec: one step of numpy's seeded pseudorandom stream
(a 64-bit linear congruential step); the repository only relies on the
stream being a deterministic function of the seed. -/
def lcgStep (s : Nat) : Nat :=
  (6364136223846793005 * s + 1442695040888963407) % 2 ^ 64

/-- Modelled from the spec: the recursion behind `np.random.shuffle` — a
Fisher-Yates draw sequence. Each draw index depends only on the pseudorandom
state and the remaining length, so two same-length lists shuffled from the
same seed undergo the same index permutation. -/
def shuffleGo (d : α) : Nat → Nat → List α → List α
  | 0, _, _ => []
  | fuel + 1, s, l =>
    if l.length = 0 then []
    else
      l.getD (s % l.length) d :: shuffleGo d fuel (lcgStep s) (l.eraseIdx (s % l.length))

/-- Modelled from the spec: `np.random.seed(seed)` followed by
`np.random.shuffle(l)` — a deterministic permutation of `l` that is a
function of the seed and of `l.length` only. -/
def npShuffle (d : α) (seed : Nat) (l : List α) : List α :=
  shuffleGo d l.length seed l

/-- The fixed shuffle seed, line 52. -/
def npSeed : Nat := 4321

/-- The `Generator` object after `__init__` succeeded. `decode` is the
external PIL loader (already converted to RGB, channel-reversed and
undecoded pixels made concrete) and `cv2resize` the external cv2 `INTER_AREA`
resampling kernel; both are collaborators bound at construction. -/
structure PyGenerator (α β : Type) where
  batch_size : Nat
  shuffle_images : Bool
  image_min_side : Nat
  decode : α × β → Image
  cv2resize : Image → Nat → Nat → Image
  classes : List α
  image_paths : List (α × β)
  image_labels : List (List ℚ)
  image_groups : List (List (α × β))
  label_groups : List (List (List ℚ))

/-- `Generator.__init__`, lines 13-27: load paths and labels, then
`create_image_groups` (optional fixed-seed shuffle of paths and labels with
the same seed, lines 50-56, then grouping). Python `range(0, N, 0)` raises
`ValueError`, so a zero batch size fails at group creation. -/
def mkGenerator [LinearOrder α] [DecidableEq α] [Inhabited α] [Inhabited β]
    (fs : FileSystem α β) (decode : α × β → Image)
    (cv2resize : Image → Nat → Nat → Image)
    (BATCH_SIZE : Nat) (shuffle_images : Bool) (image_min_side : Nat) :
    Except PyError (PyGenerator α β) :=
  match load_image_paths_labels fs with
  | Except.error e => Except.error e
  | Except.ok r =>
    let paths :=
      if shuffle_images then npShuffle default npSeed r.image_paths else r.image_paths
    let labels :=
      if shuffle_images then npShuffle [] npSeed r.image_labels else r.image_labels
    if BATCH_SIZE = 0 then Except.error PyError.valueError
    else
      Except.ok
        { batch_size := BATCH_SIZE
          shuffle_images := shuffle_images
          image_min_side := image_min_side
          decode := decode
          cv2resize := cv2resize
          classes := r.classes
          image_paths := paths
          image_labels := labels
          image_groups := create_image_groups paths default BATCH_SIZE
          label_groups := create_image_groups labels [] BATCH_SIZE }

/-- `Generator.__len__`, lines 119-124. -/
def pyLen (g : PyGenerator α β) : Nat :=
  g.image_groups.length

/-- `Generator.load_images`, lines 95-104: decode, preprocess, then resize
each image of the group; the resampled pixels come from the external
`cv2resize` kernel applied at the shape computed by `resize_image`. -/
def load_images (g : PyGenerator α β) (image_group : List (α × β)) : List Image :=
  image_group.map (fun p =>
    let img := preprocess_image (g.decode p)
    let r := resize_image img.h img.w g.image_min_side
    g.cv2resize img r.1 r.2.1)

/-- `Generator.__getitem__`, lines 126-135. -/
def getItem (g : PyGenerator α β) (index : Int) :
    Except PyError (BatchTensor × List (List ℚ)) :=
  match pyListGet g.image_groups [] index with
  | Except.error e => Except.error e
  | Except.ok image_group =>
    match pyListGet g.label_groups [] index with
    | Except.error e => Except.error e
    | Except.ok label_group =>
      match construct_image_batch g.batch_size (load_images g image_group) with
      | Except.error e => Except.error e
      | Except.ok image_batch => Except.ok (image_batch, label_group)

/-- `Generator.__getitem__` with the post-call object state made explicit:
the method body (lines 126-135) assigns no `self` field, so the state
returned is the receiver unchanged. -/
def getItemSt (g : PyGenerator α β) (index : Int) :
    Except PyError ((BatchTensor × List (List ℚ)) × PyGenerator α β) :=
  match getItem g index with
  | Except.error e => Except.error e
  | Except.ok r => Except.ok (r, g)

/-- The structural invariants `__init__` establishes and `__getitem__`
relies on: a positive batch size, equally many image groups and label
groups, and every group of exactly `batch_size` samples. -/
def wellFormed (g : PyGenerator α β) : Prop :=
  1 ≤ g.batch_size ∧
  g.label_groups.length = g.image_groups.length ∧
  (∀ gr ∈ g.image_groups, gr.length = g.batch_size)


theorem length_create_image_groups (l : List α) (d : α) (B : Nat) :
    (create_image_groups l d B).length = (l.length + B - 1) / B := by
  simp [create_image_groups, pyRange, List.length_range']

/-- Claim C1: for a dataset of `N ≥ 1` samples and batch size `B ≥ 1`,
the number of groups (which `__len__` reports) is `⌈N/B⌉ = (N+B-1)/B`,
every group has exactly `B` samples, and the `j`-th sample of group `g` is
the sample at position `(g*B + j) % N`, so the final batch wraps around to
the start instead of being short. -/
theorem create_image_groups_spec (l : List α) (d e : α) (B : Nat)
    (hN : 1 ≤ l.length) (hB : 1 ≤ B) :
    (create_image_groups l d B).length = (l.length + B - 1) / B ∧
    (∀ gr ∈ create_image_groups l d B, gr.length = B) ∧
    (∀ (σ τ : Type) (g : PyGenerator σ τ) (l' : List (σ × τ)) (d' : σ × τ),
      g.image_groups = create_image_groups l' d' B →
      pyLen g = (l'.length + B - 1) / B) ∧
    (∀ gIdx j, gIdx < (l.length + B - 1) / B → j < B →
      ((create_image_groups l d B).getD gIdx []).getD j e =
        l.getD ((gIdx * B + j) % l.length) d) := by
  have hlen := length_create_image_groups l d B
  refine ⟨hlen, ?_, ?_, ?_⟩
  · intro gr hgr
    rcases List.mem_map.mp hgr with ⟨i, _, rfl⟩
    simp only [List.length_map, pyRange, List.length_range']
    omega
  · intro σ τ g l' d' hge
    rw [pyLen, hge, length_create_image_groups]
  · intro gIdx j hg hj
    have hg' : gIdx < (create_image_groups l d B).length := by rw [hlen]; exact hg
    have hg2 : gIdx < (pyRange 0 l.length B).length := by
      simpa [create_image_groups] using hg'
    rw [List.getD_eq_getElem _ _ hg']
    have houter : (create_image_groups l d B)[gIdx] =
        (pyRange (0 + B * gIdx) (0 + B * gIdx + B) 1).map
          (fun x => l.getD (x % l.length) d) := by
      simp only [create_image_groups]
      rw [List.getElem_map]
      have hidx : (pyRange 0 l.length B)[gIdx] = 0 + B * gIdx := by
        simp only [pyRange]
        exact List.getElem_range' gIdx (by simpa [pyRange] using hg2)
      rw [hidx]
    rw [houter]
    have hlen2 : ((pyRange (0 + B * gIdx) (0 + B * gIdx + B) 1).map
        (fun x => l.getD (x % l.length) d)).length = B := by
      simp only [List.length_map, pyRange, List.length_range']
      omega
    have hj' : j < ((pyRange (0 + B * gIdx) (0 + B * gIdx + B) 1).map
        (fun x => l.getD (x % l.length) d)).length := by rw [hlen2]; exact hj
    have hj2 : j < (pyRange (0 + B * gIdx) (0 + B * gIdx + B) 1).length := by
      simpa using hj'
    rw [List.getD_eq_getElem _ _ hj']
    rw [List.getElem_map]
    have hx : (pyRange (0 + B * gIdx) (0 + B * gIdx + B) 1)[j] = 0 + B * gIdx + 1 * j := by
      simp only [pyRange]
      exact List.getElem_range' j (by simpa [pyRange] using hj2)
    rw [hx]
    have harith : 0 + B * gIdx + 1 * j = gIdx * B + j := by ring
    rw [harith]

/-- Concrete check of Claim C1 (the spec's §8.7 scenario): 5 samples,
batch size 2, so 3 groups and the wrapping third group ends with sample
`(2*2+1) % 5 = 0`, that is, the first sample again. -/
theorem create_image_groups_spec_witness :
    1 ≤ ([10, 11, 12, 13, 14] : List Nat).length ∧ 1 ≤ 2 ∧
    ((create_image_groups [10, 11, 12, 13, 14] 99 2).length = 3 ∧
      ((create_image_groups [10, 11, 12, 13, 14] 99 2).getD 2 []).getD 1 98 = 10) := by
  refine ⟨by decide, by decide, ?_, ?_⟩
  · have h := (create_image_groups_spec [10, 11, 12, 13, 14] 99 98 2
      (by decide) (by decide)).1
    simpa using h
  · have h := (create_image_groups_spec [10, 11, 12, 13, 14] 99 98 2
      (by decide) (by decide)).2.2.2 2 1 (by decide) (by decide)
    rw [h]
    decide


theorem le_foldl_max (l : List Nat) (a : Nat) : a ≤ l.foldl max a := by
  induction l generalizing a with
  | nil => exact Nat.le_refl a
  | cons b t ih => exact le_trans (Nat.le_max_left a b) (ih (max a b))

theorem mem_le_foldl_max (l : List Nat) (b : Nat) (hb : b ∈ l) (a : Nat) :
    b ≤ l.foldl max a := by
  induction l generalizing a with
  | nil => cases hb
  | cons c t ih =>
    rcases List.mem_cons.mp hb with rfl | h
    · exact le_trans (Nat.le_max_right a b) (le_foldl_max t (max a b))
    · exact ih h (max a c)

theorem foldl_max_mem (l : List Nat) (a : Nat) :
    l.foldl max a = a ∨ l.foldl max a ∈ l := by
  induction l generalizing a with
  | nil => exact Or.inl rfl
  | cons b t ih =>
    have hstep : (b :: t).foldl max a = t.foldl max (max a b) := rfl
    rcases ih (max a b) with h | h
    · rw [hstep, h]
      rcases Nat.le_total a b with hab | hab
      · right
        rw [Nat.max_eq_right hab]
        exact List.mem_cons_self b t
      · left
        exact Nat.max_eq_left hab
    · right
      rw [hstep]
      exact List.mem_cons_of_mem b h

theorem dim_le_maxDim (image_group : List Image) (img : Image)
    (h : img ∈ image_group) (x : Nat) : img.dim x ≤ maxDim image_group x := by
  have hm : img.dim x ∈ image_group.map (fun img => img.dim x) :=
    List.mem_map_of_mem (fun img => img.dim x) h
  exact mem_le_foldl_max (image_group.map (fun img => img.dim x)) (img.dim x) hm 0

theorem maxDim_mem (image_group : List Image) (hne : image_group ≠ []) (x : Nat) :
    maxDim image_group x ∈ image_group.map (fun img => img.dim x) := by
  rcases foldl_max_mem (image_group.map (fun img => img.dim x)) 0 with h | h
  · cases image_group with
    | nil => exact absurd rfl hne
    | cons img t =>
      have hle : img.dim x ≤ maxDim (img :: t) x :=
        dim_le_maxDim _ _ (List.mem_cons_self img t) x
      have h0 : maxDim (img :: t) x = 0 := h
      have : img.dim x = 0 := Nat.le_antisymm (h0 ▸ hle) (Nat.zero_le _)
      rw [maxDim, h, ← this]
      exact List.mem_map_of_mem _ (List.mem_cons_self img t)
  · exact h

/-- Unrolling the copy loop of `construct_image_batch`: after writing the
images of `rest` into slots `k, k+1, ...` of the pixel map `t`, a cell holds
the corresponding image pixel inside a written slot's image region, and its
previous value everywhere else. -/
theorem foldl_writeSlot (rest : List Image) (k : Nat)
    (t : Nat → Nat → Nat → Nat → ℚ) (a y x ch : Nat) :
    ((rest.enumFrom k).foldl (fun u p => writeSlot u p.1 p.2) t) a y x ch =
      if k ≤ a ∧ a - k < rest.length ∧
         y < (rest.getD (a - k) zeroImage).h ∧
         x < (rest.getD (a - k) zeroImage).w ∧
         ch < (rest.getD (a - k) zeroImage).c then
        (rest.getD (a - k) zeroImage).px y x ch
      else t a y x ch := by
  induction rest generalizing k t with
  | nil =>
    simp only [List.length_nil]
    rw [if_neg (fun hc => by omega)]
    rfl
  | cons img rest ih =>
    have hstep : (((img :: rest).enumFrom k).foldl (fun u p => writeSlot u p.1 p.2) t) =
        ((rest.enumFrom (k + 1)).foldl (fun u p => writeSlot u p.1 p.2)
          (writeSlot t k img)) := rfl
    rw [hstep, ih (k + 1) (writeSlot t k img)]
    rcases Nat.lt_trichotomy a k with hak | hak | hak
    · simp only [writeSlot, List.length_cons]
      split_ifs <;> first | rfl | omega
    · subst hak
      simp only [writeSlot, List.length_cons, Nat.sub_self, List.getD_cons_zero,
        eq_self_iff_true, true_and]
      split_ifs <;> first | rfl | omega
    · have hsub : a - k = a - (k + 1) + 1 := by omega
      have hgetD : (img :: rest).getD (a - k) zeroImage =
          rest.getD (a - (k + 1)) zeroImage := by
        rw [hsub]
        rfl
      simp only [writeSlot, List.length_cons, hgetD, eq_self_iff_true, true_and]
      split_ifs <;> first | rfl | omega

/-- Claim C2: for a nonempty group of at most `batch_size` images,
`construct_image_batch` succeeds and returns a tensor of shape
`(batch_size, max h_i, max w_i, max c_i)` (each bound attained by some image
of the group); inside slot `i` the region `[0:h_i, 0:w_i, 0:c_i]` equals
image `i` exactly, and every other cell — outside that region, or in a slot
past the group — is zero: no cropping, no information loss. -/
theorem construct_image_batch_spec (B : Nat) (image_group : List Image)
    (hne : image_group ≠ []) (hlen : image_group.length ≤ B) :
    ∃ bt : BatchTensor, construct_image_batch B image_group = Except.ok bt ∧
      bt.n = B ∧
      bt.h = maxDim image_group 0 ∧
      bt.w = maxDim image_group 1 ∧
      bt.c = maxDim image_group 2 ∧
      (∀ img ∈ image_group, img.h ≤ bt.h ∧ img.w ≤ bt.w ∧ img.c ≤ bt.c) ∧
      (bt.h ∈ image_group.map (fun img => img.h) ∧
        bt.w ∈ image_group.map (fun img => img.w) ∧
        bt.c ∈ image_group.map (fun img => img.c)) ∧
      (∀ i y x ch, i < image_group.length →
        ((y < (image_group.getD i zeroImage).h ∧
          x < (image_group.getD i zeroImage).w ∧
          ch < (image_group.getD i zeroImage).c) →
          bt.val i y x ch = (image_group.getD i zeroImage).px y x ch) ∧
        (¬(y < (image_group.getD i zeroImage).h ∧
          x < (image_group.getD i zeroImage).w ∧
          ch < (image_group.getD i zeroImage).c) →
          bt.val i y x ch = 0)) ∧
      (∀ i y x ch, image_group.length ≤ i → bt.val i y x ch = 0) := by
  obtain ⟨img0, tl, rfl⟩ : ∃ img0 tl, image_group = img0 :: tl := by
    cases image_group with
    | nil => exact absurd rfl hne
    | cons a l => exact ⟨a, l, rfl⟩
  have hval : ∀ a y x ch,
      ((img0 :: tl).enum.foldl (fun u p => writeSlot u p.1 p.2)
        (fun _ _ _ _ => (0 : ℚ))) a y x ch =
      if a < (img0 :: tl).length ∧
         y < ((img0 :: tl).getD a zeroImage).h ∧
         x < ((img0 :: tl).getD a zeroImage).w ∧
         ch < ((img0 :: tl).getD a zeroImage).c then
        ((img0 :: tl).getD a zeroImage).px y x ch
      else 0 := by
    intro a y x ch
    have h := foldl_writeSlot (img0 :: tl) 0 (fun _ _ _ _ => (0 : ℚ)) a y x ch
    simpa only [Nat.zero_le, true_and, Nat.sub_zero] using h
  refine ⟨⟨B, maxDim (img0 :: tl) 0, maxDim (img0 :: tl) 1, maxDim (img0 :: tl) 2,
      (img0 :: tl).enum.foldl (fun u p => writeSlot u p.1 p.2) (fun _ _ _ _ => 0)⟩,
    ?_, rfl, rfl, rfl, rfl, ?_, ?_, ?_, ?_⟩
  · simp only [construct_image_batch]
    rw [if_pos hlen]
  · intro img hmem
    exact ⟨dim_le_maxDim _ img hmem 0, dim_le_maxDim _ img hmem 1,
      dim_le_maxDim _ img hmem 2⟩
  · exact ⟨maxDim_mem _ (by simp) 0, maxDim_mem _ (by simp) 1,
      maxDim_mem _ (by simp) 2⟩
  · intro i y x ch hi
    constructor
    · intro hr
      dsimp only
      rw [hval i y x ch, if_pos ⟨hi, hr.1, hr.2.1, hr.2.2⟩]
    · intro hr
      dsimp only
      rw [hval i y x ch, if_neg (fun hc => hr ⟨hc.2.1, hc.2.2.1, hc.2.2.2⟩)]
  · intro i y x ch hi
    dsimp only
    rw [hval i y x ch, if_neg (fun hc => by omega)]

/-- A 1×2×1 image with constant pixel 5, for the Claim C2 check. -/
def imgW1 : Image := { h := 1, w := 2, c := 1, px := fun _ _ _ => 5 }

/-- A 2×1×1 image with constant pixel 7, for the Claim C2 check. -/
def imgW2 : Image := { h := 2, w := 1, c := 1, px := fun _ _ _ => 7 }

/-- Concrete check of Claim C2: two images of shapes (1,2,1) and (2,1,1) in
a batch of size 2 give a (2,2,2,1) tensor whose regions hold the images and
whose padding is zero. -/
theorem construct_image_batch_spec_witness :
    ([imgW1, imgW2] : List Image) ≠ [] ∧ ([imgW1, imgW2] : List Image).length ≤ 2 ∧
    ∃ bt : BatchTensor, construct_image_batch 2 [imgW1, imgW2] = Except.ok bt ∧
      bt.h = 2 ∧ bt.w = 2 ∧
      bt.val 0 0 1 0 = 5 ∧ bt.val 1 1 0 0 = 7 ∧ bt.val 0 1 1 0 = 0 := by
  refine ⟨by simp, by simp, ?_⟩
  obtain ⟨bt, hok, hn, hh, hw, hc, _, _, hreg, _⟩ :=
    construct_image_batch_spec 2 [imgW1, imgW2] (by simp) (by simp)
  refine ⟨bt, hok, ?_, ?_, ?_, ?_, ?_⟩
  · rw [hh]; rfl
  · rw [hw]; rfl
  · have h := (hreg 0 0 1 0 (by simp)).1 (by constructor <;> simp [imgW1])
    simpa [imgW1] using h
  · have h := (hreg 1 1 0 0 (by simp)).1 (by constructor <;> simp [imgW2])
    simpa [imgW2] using h
  · have h := (hreg 0 1 1 0 (by simp)).2 (by simp [imgW1])
    exact h


/-- Claim C3: for an image of shape `(h, w)` (both positive): when the
shorter side is below `min_side_len`, both dimensions are scaled uniformly
by `min_side_len / min h w` and truncated (`int()` = floor on nonnegative
values), and the resized shorter side is then exactly `min_side_len`; when
the shorter side is already at least `min_side_len`, the scale factor is 1
and the dimensions are unchanged. In all cases the returned ratios are the
exact ratios `new_h / h` and `new_w / w` actually applied. -/
theorem resize_image_spec (h w m : Nat) (hh : 1 ≤ h) (hw : 1 ≤ w) :
    (min h w < m →
      (resize_image h w m).1 = ⌊(h : ℚ) * ((m : ℚ) / ((min h w : Nat) : ℚ))⌋₊ ∧
      (resize_image h w m).2.1 = ⌊(w : ℚ) * ((m : ℚ) / ((min h w : Nat) : ℚ))⌋₊ ∧
      min (resize_image h w m).1 (resize_image h w m).2.1 = m) ∧
    (m ≤ min h w →
      (resize_image h w m).1 = h ∧ (resize_image h w m).2.1 = w) ∧
    (resize_image h w m).2.2.1 = (((resize_image h w m).1 : Nat) : ℚ) / (h : ℚ) ∧
    (resize_image h w m).2.2.2 = (((resize_image h w m).2.1 : Nat) : ℚ) / (w : ℚ) := by
  have h0 : ((h : ℚ)) ≠ 0 := by
    have : (0 : ℚ) < (h : ℚ) := by exact_mod_cast Nat.lt_of_lt_of_le Nat.zero_lt_one hh
    exact ne_of_gt this
  have w0 : ((w : ℚ)) ≠ 0 := by
    have : (0 : ℚ) < (w : ℚ) := by exact_mod_cast Nat.lt_of_lt_of_le Nat.zero_lt_one hw
    exact ne_of_gt this
  have cancel : ∀ u : ℚ, u ≠ 0 → u * ((m : ℚ) / u) = (m : ℚ) := by
    intro u hu
    rw [← mul_div_assoc, mul_comm, mul_div_assoc, div_self hu, mul_one]
  simp only [resize_image]
  rcases Nat.lt_or_ge (min h w) m with hlt | hge
  · rw [if_pos hlt]
    rcases Nat.lt_or_ge h w with hlw | hlw
    · rw [if_pos hlw]
      have hmin : min h w = h := Nat.min_eq_left (Nat.le_of_lt hlw)
      have e1 : ⌊(h : ℚ) * ((m : ℚ) / (h : ℚ))⌋₊ = m := by
        rw [cancel _ h0, Nat.floor_natCast]
      have e2 : m ≤ ⌊(w : ℚ) * ((m : ℚ) / (h : ℚ))⌋₊ := by
        have hmono : ((m : ℚ)) ≤ (w : ℚ) * ((m : ℚ) / (h : ℚ)) := by
          have hhw : ((h : ℚ)) ≤ (w : ℚ) := by exact_mod_cast Nat.le_of_lt hlw
          have hnn : (0 : ℚ) ≤ (m : ℚ) / (h : ℚ) := by positivity
          calc (m : ℚ) = (h : ℚ) * ((m : ℚ) / (h : ℚ)) := (cancel _ h0).symm
            _ ≤ (w : ℚ) * ((m : ℚ) / (h : ℚ)) := mul_le_mul_of_nonneg_right hhw hnn
        calc m = ⌊(m : ℚ)⌋₊ := (Nat.floor_natCast m).symm
          _ ≤ _ := Nat.floor_le_floor hmono
      refine ⟨fun _ => ⟨by rw [hmin], by rw [hmin], ?_⟩,
        fun hge2 => absurd hlt (by omega), trivial, trivial⟩
      rw [e1]
      exact Nat.min_eq_left e2
    · rw [if_neg (Nat.not_lt.mpr hlw)]
      have hmin : min h w = w := Nat.min_eq_right hlw
      have e1 : ⌊(w : ℚ) * ((m : ℚ) / (w : ℚ))⌋₊ = m := by
        rw [cancel _ w0, Nat.floor_natCast]
      have e2 : m ≤ ⌊(h : ℚ) * ((m : ℚ) / (w : ℚ))⌋₊ := by
        have hmono : ((m : ℚ)) ≤ (h : ℚ) * ((m : ℚ) / (w : ℚ)) := by
          have hhw : ((w : ℚ)) ≤ (h : ℚ) := by exact_mod_cast hlw
          have hnn : (0 : ℚ) ≤ (m : ℚ) / (w : ℚ) := by positivity
          calc (m : ℚ) = (w : ℚ) * ((m : ℚ) / (w : ℚ)) := (cancel _ w0).symm
            _ ≤ (h : ℚ) * ((m : ℚ) / (w : ℚ)) := mul_le_mul_of_nonneg_right hhw hnn
        calc m = ⌊(m : ℚ)⌋₊ := (Nat.floor_natCast m).symm
          _ ≤ _ := Nat.floor_le_floor hmono
      refine ⟨fun _ => ⟨by rw [hmin], by rw [hmin], ?_⟩,
        fun hge2 => absurd hlt (by omega), trivial, trivial⟩
      rw [e1]
      exact Nat.min_eq_right e2
  · rw [if_neg (Nat.not_lt.mpr hge)]
    refine ⟨fun hlt2 => absurd hlt2 (Nat.not_lt.mpr hge), fun _ => ⟨?_, ?_⟩, trivial, trivial⟩
    · rw [mul_one, Nat.floor_natCast]
    · rw [mul_one, Nat.floor_natCast]

/-- Concrete check of Claim C3: a 10×30 image with `image_min_side = 24` is
upscaled so that its shorter side becomes exactly 24, and the returned
ratios are the ratios actually applied. -/
theorem resize_image_spec_witness :
    1 ≤ 10 ∧ 1 ≤ 30 ∧
    min (resize_image 10 30 24).1 (resize_image 10 30 24).2.1 = 24 ∧
    (resize_image 10 30 24).2.2.1 = (((resize_image 10 30 24).1 : Nat) : ℚ) / 10 := by
  have h := resize_image_spec 10 30 24 (by decide) (by decide)
  exact ⟨by decide, by decide, (h.1 (by decide)).2.2, by exact_mod_cast h.2.2.1⟩


/-- Counterexample to Claim C4 as stated: pixel value 255 is mapped to
exactly 1, so the normalized values do not all lie in the half-open range
[-1, 1). -/
theorem preprocess_pixel_range_counterexample :
    preprocess_pixel 255 = 1 ∧ ¬(preprocess_pixel 255 < 1) := by
  constructor
  · norm_num [preprocess_pixel]
  · norm_num [preprocess_pixel]

/-- Claim C4 (amended): normalization maps each raw pixel value
`x ∈ [0, 255]` to `x / 127.5 - 1`; pixel 0 maps to exactly -1; pixel 255
maps to 1, within the claimed `1/127.5` tolerance of 1; and every
normalized value lies in the closed range [-1, 1] (the claim's half-open
upper bound fails only at `x = 255`, which maps to exactly 1). The
array-level `preprocess_image` applies exactly this map pixelwise. -/
theorem preprocess_pixel_spec (x : ℚ) (h0 : 0 ≤ x) (h1 : x ≤ 255) :
    preprocess_pixel x = x / 127.5 - 1 ∧
    preprocess_pixel 0 = -1 ∧
    |preprocess_pixel 255 - 1| ≤ 1 / 127.5 ∧
    -1 ≤ preprocess_pixel x ∧ preprocess_pixel x ≤ 1 ∧
    (∀ (img : Image) (y z ch : Nat),
      (preprocess_image img).px y z ch = preprocess_pixel (img.px y z ch) ∧
      (preprocess_image img).h = img.h ∧ (preprocess_image img).w = img.w ∧
      (preprocess_image img).c = img.c) := by
  have hdiv : x / 127.5 = x * (2 / 255) := by
    rw [div_eq_mul_inv]
    norm_num
  refine ⟨rfl, by norm_num [preprocess_pixel], by norm_num [preprocess_pixel],
    ?_, ?_, fun img y z ch => ⟨rfl, rfl, rfl, rfl⟩⟩
  · rw [preprocess_pixel, hdiv]
    linarith
  · rw [preprocess_pixel, hdiv]
    linarith

/-- Concrete check of Claim C4 (amended) at the extreme pixel value 255:
the hypotheses hold and the normalized value is within [-1, 1]. -/
theorem preprocess_pixel_spec_witness :
    (0 : ℚ) ≤ 255 ∧ (255 : ℚ) ≤ 255 ∧
    (-1 ≤ preprocess_pixel 255 ∧ preprocess_pixel 255 ≤ 1) := by
  have h := preprocess_pixel_spec 255 (by norm_num) (by norm_num)
  exact ⟨by norm_num, by norm_num, h.2.2.2.1, h.2.2.2.2.1⟩


theorem eraseIdx_map (f : α → β) (l : List α) (k : Nat) :
    (l.map f).eraseIdx k = (l.eraseIdx k).map f := by
  induction l generalizing k with
  | nil => rfl
  | cons a t ih =>
    cases k with
    | zero => rfl
    | succ k => simp only [List.map_cons, List.eraseIdx_cons_succ, ih k]

theorem shuffleGo_map (f : α → β) (d : α) (e : β) :
    ∀ (fuel s : Nat) (l : List α),
      shuffleGo e fuel s (l.map f) = (shuffleGo d fuel s l).map f := by
  intro fuel
  induction fuel with
  | zero => intro s l; rfl
  | succ fuel ih =>
    intro s l
    simp only [shuffleGo]
    by_cases hl : l.length = 0
    · rw [if_pos (by simpa using hl), if_pos hl]
      rfl
    · rw [if_neg (by simpa using hl), if_neg hl]
      have hk : s % l.length < l.length := Nat.mod_lt s (Nat.pos_of_ne_zero hl)
      rw [List.map_cons, List.length_map]
      congr 1
      · rw [List.getD_eq_getElem _ _ (by simpa using hk), List.getD_eq_getElem _ _ hk]
        exact List.getElem_map f
      · rw [eraseIdx_map f l (s % l.length)]
        exact ih (lcgStep s) (l.eraseIdx (s % l.length))

theorem getElem_cons_eraseIdx_perm (l : List α) (k : Nat) (hk : k < l.length) :
    (l[k] :: l.eraseIdx k).Perm l := by
  have h2 : l.take k ++ l[k] :: l.drop (k + 1) = l := by
    rw [List.getElem_cons_drop l k hk, List.take_append_drop]
  rw [List.eraseIdx_eq_take_drop_succ]
  have hp : (l[k] :: (l.take k ++ l.drop (k + 1))).Perm
      (l.take k ++ l[k] :: l.drop (k + 1)) := List.perm_middle.symm
  rw [h2] at hp
  exact hp

theorem shuffleGo_perm (d : α) :
    ∀ (fuel s : Nat) (l : List α), l.length = fuel → (shuffleGo d fuel s l).Perm l := by
  intro fuel
  induction fuel with
  | zero =>
    intro s l hl
    rw [List.length_eq_zero] at hl
    subst hl
    exact List.Perm.refl _
  | succ fuel ih =>
    intro s l hl
    simp only [shuffleGo]
    rw [if_neg (by omega)]
    have hk : s % l.length < l.length := Nat.mod_lt s (by omega)
    have hlen : (l.eraseIdx (s % l.length)).length = fuel := by
      rw [List.length_eraseIdx_of_lt hk]
      omega
    have htail := ih (lcgStep s) _ hlen
    rw [List.getD_eq_getElem _ _ hk]
    exact (htail.cons _).trans (getElem_cons_eraseIdx_perm l _ hk)

theorem npShuffle_map (f : α → β) (d : α) (e : β) (seed : Nat) (l : List α) :
    npShuffle e seed (l.map f) = (npShuffle d seed l).map f := by
  rw [npShuffle, npShuffle, List.length_map]
  exact shuffleGo_map f d e l.length seed l

theorem npShuffle_perm (d : α) (seed : Nat) (l : List α) :
    (npShuffle d seed l).Perm l :=
  shuffleGo_perm d l.length seed l rfl

theorem load_labels_eq [LinearOrder α] [DecidableEq α] (fs : FileSystem α β)
    (r : LoadResult α β) (hok : load_image_paths_labels fs = Except.ok r) :
    r.image_labels = r.image_paths.map (fun p => oneHot r.classes p.1) := by
  simp only [load_image_paths_labels] at hok
  split at hok
  · cases hok
  · split at hok
    · cases hok
    · split at hok
      · cases hok
      · split at hok
        · cases hok
        · split at hok
          · cases hok
            rfl
          · cases hok


theorem mkGenerator_ok [LinearOrder α] [DecidableEq α] [Inhabited α] [Inhabited β]
    (fs : FileSystem α β) (dec : α × β → Image) (cv : Image → Nat → Nat → Image)
    (B : Nat) (sh : Bool) (m : Nat) (g : PyGenerator α β)
    (hok : mkGenerator fs dec cv B sh m = Except.ok g) :
    ∃ r, load_image_paths_labels fs = Except.ok r ∧ B ≠ 0 ∧
      g = { batch_size := B
            shuffle_images := sh
            image_min_side := m
            decode := dec
            cv2resize := cv
            classes := r.classes
            image_paths :=
              if sh then npShuffle default npSeed r.image_paths else r.image_paths
            image_labels :=
              if sh then npShuffle [] npSeed r.image_labels else r.image_labels
            image_groups := create_image_groups
              (if sh then npShuffle default npSeed r.image_paths else r.image_paths)
              default B
            label_groups := create_image_groups
              (if sh then npShuffle [] npSeed r.image_labels else r.image_labels)
              [] B } := by
  simp only [mkGenerator] at hok
  split at hok
  · cases hok
  · rename_i r heq
    split at hok
    · cases hok
    · rename_i hB
      cases hok
      exact ⟨r, heq, hB, rfl⟩

/-- Claim C5: with shuffling enabled, one fixed-seed permutation is applied
to paths and labels together — shuffling the label list (the image of the
path list under the per-sample labelling function) yields the image of the
shuffled path list, so position `i` of the shuffled paths still corresponds
to position `i` of the shuffled labels; the shuffle is a permutation of the
sample set; two generators built over equal directory listings produce
identical orderings (two-run determinism); and with shuffling disabled the
sample order is exactly the directory-scan order. -/
theorem shuffle_spec [LinearOrder σ] [DecidableEq σ] [Inhabited σ] [Inhabited τ]
    (paths : List (σ × τ)) (f : σ × τ → List ℚ) (seed : Nat)
    (fs1 fs2 : FileSystem σ τ) (dec : σ × τ → Image)
    (cv : Image → Nat → Nat → Image) (B m : Nat) (hfs : fs1 = fs2) :
    npShuffle [] seed (paths.map f) = (npShuffle default seed paths).map f ∧
    (npShuffle default seed paths).Perm paths ∧
    mkGenerator fs1 dec cv B true m = mkGenerator fs2 dec cv B true m ∧
    (∀ (sh : Bool) (g : PyGenerator σ τ), mkGenerator fs1 dec cv B sh m = Except.ok g →
      g.image_labels = g.image_paths.map (fun p => oneHot g.classes p.1)) ∧
    (∀ g : PyGenerator σ τ, mkGenerator fs1 dec cv B false m = Except.ok g →
      ∃ r, load_image_paths_labels fs1 = Except.ok r ∧
        g.image_paths = r.image_paths ∧ g.image_labels = r.image_labels) := by
  refine ⟨npShuffle_map f default [] seed paths, npShuffle_perm default seed paths,
    by rw [hfs], ?_, ?_⟩
  · intro sh g hg
    obtain ⟨r, hld, hB, rfl⟩ := mkGenerator_ok _ _ _ _ _ _ _ hg
    have hlab := load_labels_eq fs1 r hld
    cases sh
    · simpa using hlab
    · simp only [if_true]
      rw [hlab]
      exact npShuffle_map (fun p => oneHot r.classes p.1) default [] npSeed r.image_paths
  · intro g hg
    obtain ⟨r, hld, hB, rfl⟩ := mkGenerator_ok _ _ _ _ _ _ _ hg
    exact ⟨r, hld, by simp, by simp⟩

/-- A two-class example directory tree (class 0 with files 100, 101 and
class 1 with files 200, 201, 202), used by the concrete checks. -/
def fsW : FileSystem Nat Nat :=
  { rootEntries := some [1, 0]
    subEntries := fun c => if c = 0 then some [100, 101] else some [200, 201, 202] }

/-- A trivial decoder for the concrete checks: every file decodes to a
2×2×3 image with constant pixel value 51. -/
def decW : Nat × Nat → Image :=
  fun _ => { h := 2, w := 2, c := 3, px := fun _ _ _ => 51 }

/-- A shape-faithful stand-in for the cv2 resampling kernel, used by the
concrete checks: it keeps the source pixels and takes the target shape. -/
def cvW : Image → Nat → Nat → Image :=
  fun img nh nw => { h := nh, w := nw, c := img.c, px := img.px }

/-- Concrete check of Claim C5: on a three-sample list, shuffling the label
list with the fixed seed gives exactly the shuffled path list's labels. -/
theorem shuffle_spec_witness :
    fsW = fsW ∧
    npShuffle ([] : List ℚ) npSeed
        ([(0, 100), (1, 200), (1, 201)].map (fun p => oneHot [0, 1] p.1)) =
      (npShuffle (default : Nat × Nat) npSeed [(0, 100), (1, 200), (1, 201)]).map
        (fun p => oneHot [0, 1] p.1) :=
  ⟨rfl, (shuffle_spec [(0, 100), (1, 200), (1, 201)] (fun p => oneHot [0, 1] p.1)
    npSeed fsW fsW decW cvW 2 24 rfl).1⟩


theorem categories_nodup [LinearOrder α] [DecidableEq α] (cls : List α) :
    (categories cls).Nodup :=
  (List.perm_insertionSort _ cls.dedup).symm.nodup (List.nodup_dedup cls)

theorem mem_categories [LinearOrder α] [DecidableEq α] (cls : List α) (c : α) :
    c ∈ categories cls ↔ c ∈ cls := by
  rw [categories, (List.perm_insertionSort _ cls.dedup).mem_iff, List.mem_dedup]

theorem oneHot_length [DecidableEq α] (cats : List α) (c : α) :
    (oneHot cats c).length = cats.length := by
  rw [oneHot, List.length_map]

theorem oneHot_getD_indexOf [DecidableEq α] (cats : List α) (c : α) (hc : c ∈ cats) :
    (oneHot cats c).getD (cats.indexOf c) 0 = 1 := by
  have hidx : cats.indexOf c < cats.length := List.indexOf_lt_length.mpr hc
  have hlen : cats.indexOf c < (oneHot cats c).length := by
    rw [oneHot_length]
    exact hidx
  rw [List.getD_eq_getElem _ _ hlen]
  have : (oneHot cats c)[cats.indexOf c] =
      if cats[cats.indexOf c] = c then (1 : ℚ) else 0 := by
    simp only [oneHot]
    exact List.getElem_map _
  rw [this, if_pos (List.getElem_indexOf hidx)]

theorem oneHot_getD_of_ne [DecidableEq α] (cats : List α) (c1 c2 : α)
    (hc1 : c1 ∈ cats) (hne : c1 ≠ c2) :
    (oneHot cats c2).getD (cats.indexOf c1) 0 = 0 := by
  have hidx : cats.indexOf c1 < cats.length := List.indexOf_lt_length.mpr hc1
  have hlen : cats.indexOf c1 < (oneHot cats c2).length := by
    rw [oneHot_length]
    exact hidx
  rw [List.getD_eq_getElem _ _ hlen]
  have he : (oneHot cats c2)[cats.indexOf c1] =
      if cats[cats.indexOf c1] = c2 then (1 : ℚ) else 0 := by
    simp only [oneHot]
    exact List.getElem_map _
  rw [he, if_neg (by rw [List.getElem_indexOf hidx]; exact hne)]

theorem oneHot_injective [DecidableEq α] (cats : List α) (c1 c2 : α)
    (hc1 : c1 ∈ cats) (hc2 : c2 ∈ cats)
    (heq : oneHot cats c1 = oneHot cats c2) : c1 = c2 := by
  by_contra hne
  have e1 := oneHot_getD_indexOf cats c1 hc1
  have e2 := oneHot_getD_of_ne cats c1 c2 hc1 hne
  rw [heq] at e1
  rw [e1] at e2
  norm_num at e2

theorem count_one_oneHot [DecidableEq α] (cats : List α) (c : α)
    (hnd : cats.Nodup) (hc : c ∈ cats) : (oneHot cats c).count 1 = 1 := by
  induction cats with
  | nil => cases hc
  | cons a t ih =>
    rw [oneHot, List.map_cons]
    by_cases hac : a = c
    · subst hac
      rw [if_pos rfl, List.count_cons_self]
      have hz : (t.map fun k => if k = a then (1 : ℚ) else 0).count 1 = 0 := by
        rw [List.count_eq_zero]
        intro hmem
        rcases List.mem_map.mp hmem with ⟨k, hk, hfk⟩
        by_cases hka : k = a
        · exact (List.nodup_cons.mp hnd).1 (hka ▸ hk)
        · rw [if_neg hka] at hfk
          norm_num at hfk
      rw [hz]
    · rw [if_neg hac, List.count_cons_of_ne (by norm_num)]
      have hct : c ∈ t := by
        rcases List.mem_cons.mp hc with h | h
        · exact absurd h.symm hac
        · exact h
      exact ih (List.nodup_cons.mp hnd).2 hct

/-- Claim C6: within one generator, the label encoding over the fitted
category list is bijective and stable — every one-hot vector has width
equal to the number of classes, exactly one hot entry (at the class's
index, an injective position assignment), distinct classes get distinct
vectors, and every loaded sample of a given class carries the same one-hot
row. -/
theorem oneHot_spec [LinearOrder α] [DecidableEq α] (cls : List α) (hne : cls ≠ []) :
    (∀ c, (oneHot (categories cls) c).length = (categories cls).length) ∧
    (∀ c1 ∈ categories cls, ∀ c2 ∈ categories cls,
      oneHot (categories cls) c1 = oneHot (categories cls) c2 → c1 = c2) ∧
    (∀ c ∈ categories cls,
      (oneHot (categories cls) c).count 1 = 1 ∧
      (oneHot (categories cls) c).getD ((categories cls).indexOf c) 0 = 1) ∧
    (∀ c1 ∈ categories cls, ∀ c2 ∈ categories cls,
      (categories cls).indexOf c1 = (categories cls).indexOf c2 → c1 = c2) ∧
    (∀ (β : Type) (fs : FileSystem α β) (r : LoadResult α β) (pd : α × β),
      load_image_paths_labels fs = Except.ok r →
      ∀ i j, i < r.image_paths.length → j < r.image_paths.length →
        (r.image_paths.getD i pd).1 = (r.image_paths.getD j pd).1 →
        r.image_labels.getD i [] = r.image_labels.getD j []) := by
  refine ⟨oneHot_length _, fun c1 h1 c2 h2 => oneHot_injective _ c1 c2 h1 h2, ?_, ?_, ?_⟩
  · intro c hc
    exact ⟨count_one_oneHot _ c (categories_nodup cls) hc,
      oneHot_getD_indexOf _ c hc⟩
  · intro c1 h1 c2 h2 hidx
    have i1 : (categories cls).indexOf c1 < (categories cls).length :=
      List.indexOf_lt_length.mpr h1
    have e1 : (categories cls)[(categories cls).indexOf c1] = c1 :=
      List.getElem_indexOf i1
    have i2 : (categories cls).indexOf c2 < (categories cls).length :=
      List.indexOf_lt_length.mpr h2
    have e2 : (categories cls)[(categories cls).indexOf c2] = c2 :=
      List.getElem_indexOf i2
    rw [← e1, ← e2]
    congr 1
  · intro β fs r pd hok i j hi hj hcls
    have hlab := load_labels_eq fs r hok
    have hleni : i < r.image_labels.length := by
      rw [hlab, List.length_map]
      exact hi
    have hlenj : j < r.image_labels.length := by
      rw [hlab, List.length_map]
      exact hj
    rw [List.getD_eq_getElem _ _ hleni, List.getD_eq_getElem _ _ hlenj]
    have gi : r.image_labels[i] = oneHot r.classes (r.image_paths.getD i pd).1 := by
      rw [List.getD_eq_getElem _ _ hi]
      simp only [hlab]
      exact List.getElem_map _
    have gj : r.image_labels[j] = oneHot r.classes (r.image_paths.getD j pd).1 := by
      rw [List.getD_eq_getElem _ _ hj]
      simp only [hlab]
      exact List.getElem_map _
    rw [gi, gj, hcls]

/-- Concrete check of Claim C6 on classes `[1, 0]`: the two one-hot rows
are `[1, 0]` and `[0, 1]`, distinct and of width 2. -/
theorem oneHot_spec_witness :
    ([1, 0] : List Nat) ≠ [] ∧
    (oneHot (categories [1, 0]) 0).length = (categories [1, 0]).length ∧
    (oneHot (categories [1, 0]) 0).count 1 = 1 := by
  have h := oneHot_spec [1, 0] (by decide)
  exact ⟨by decide, h.1 0, (h.2.2.1 0 (by decide)).1⟩


theorem pyListGet_spec (l : List γ) (d : γ) (index : Int) :
    ((-(l.length : Int) ≤ index ∧ index < (l.length : Int)) →
      ∃ v, pyListGet l d index = Except.ok v ∧ v ∈ l) ∧
    ((index < -(l.length : Int) ∨ (l.length : Int) ≤ index) →
      pyListGet l d index = Except.error PyError.indexError) ∧
    (0 ≤ index → index < (l.length : Int) →
      pyListGet l d index = Except.ok (l.getD index.toNat d)) := by
  refine ⟨?_, ?_, ?_⟩
  · rintro ⟨h1, h2⟩
    by_cases hneg : index < 0
    · simp only [pyListGet, if_pos hneg]
      rw [if_pos ⟨by omega, by omega⟩]
      have hb : ((l.length : Int) + index).toNat < l.length := by omega
      refine ⟨_, rfl, ?_⟩
      rw [List.getD_eq_getElem _ _ hb]
      exact List.getElem_mem hb
    · simp only [pyListGet, if_neg hneg]
      rw [if_pos ⟨by omega, by omega⟩]
      have hb : index.toNat < l.length := by omega
      refine ⟨_, rfl, ?_⟩
      rw [List.getD_eq_getElem _ _ hb]
      exact List.getElem_mem hb
  · intro hout
    by_cases hneg : index < 0
    · simp only [pyListGet, if_pos hneg]
      rw [if_neg (fun hc => by omega)]
    · simp only [pyListGet, if_neg hneg]
      rw [if_neg (fun hc => by omega)]
  · intro h0 h2
    simp only [pyListGet, if_neg (by omega : ¬index < 0)]
    rw [if_pos ⟨by omega, by omega⟩]

theorem construct_image_batch_isOk (B : Nat) (image_group : List Image)
    (hne : image_group ≠ []) (hlen : image_group.length ≤ B) :
    ∃ bt, construct_image_batch B image_group = Except.ok bt := by
  cases image_group with
  | nil => exact absurd rfl hne
  | cons a t =>
    refine ⟨⟨B, maxDim (a :: t) 0, maxDim (a :: t) 1, maxDim (a :: t) 2,
      (a :: t).enum.foldl (fun u p => writeSlot u p.1 p.2) (fun _ _ _ _ => 0)⟩, ?_⟩
    simp only [construct_image_batch]
    rw [if_pos hlen]

theorem getItem_eq_ok (g : PyGenerator α β) (index : Int)
    (ig : List (α × β)) (lg : List (List ℚ)) (bt : BatchTensor)
    (hig : pyListGet g.image_groups [] index = Except.ok ig)
    (hlg : pyListGet g.label_groups [] index = Except.ok lg)
    (hbt : construct_image_batch g.batch_size (load_images g ig) = Except.ok bt) :
    getItem g index = Except.ok (bt, lg) := by
  unfold getItem
  rw [hig]
  dsimp only
  rw [hlg]
  dsimp only
  rw [hbt]

theorem getItem_eq_error_left (g : PyGenerator α β) (index : Int) (e : PyError)
    (hig : pyListGet g.image_groups [] index = Except.error e) :
    getItem g index = Except.error e := by
  unfold getItem
  rw [hig]

theorem length_of_mem_create_image_groups (l : List α) (d : α) (B : Nat)
    (gr : List α) (hgr : gr ∈ create_image_groups l d B) : gr.length = B := by
  rcases List.mem_map.mp hgr with ⟨i, _, rfl⟩
  simp only [List.length_map, pyRange, List.length_range']
  omega

theorem mkGenerator_wellFormed [LinearOrder α] [DecidableEq α] [Inhabited α]
    [Inhabited β] (fs : FileSystem α β) (dec : α × β → Image)
    (cv : Image → Nat → Nat → Image) (B : Nat) (sh : Bool) (m : Nat)
    (g : PyGenerator α β) (hok : mkGenerator fs dec cv B sh m = Except.ok g) :
    wellFormed g := by
  obtain ⟨r, hld, hB, rfl⟩ := mkGenerator_ok _ _ _ _ _ _ _ hok
  refine ⟨Nat.pos_of_ne_zero hB, ?_, ?_⟩
  · dsimp only
    rw [length_create_image_groups, length_create_image_groups]
    have hpl : r.image_labels.length = r.image_paths.length := by
      rw [load_labels_eq fs r hld, List.length_map]
    have hL : (if sh then npShuffle [] npSeed r.image_labels else r.image_labels).length =
        (if sh then npShuffle default npSeed r.image_paths else r.image_paths).length := by
      cases sh
      · simpa using hpl
      · simp only [if_true]
        rw [(npShuffle_perm ([] : List ℚ) npSeed r.image_labels).length_eq,
          (npShuffle_perm (default : α × β) npSeed r.image_paths).length_eq]
        exact hpl
    rw [hL]
  · intro gr hgr
    exact length_of_mem_create_image_groups _ _ _ gr hgr


/-- Claim C7 (amended): for a well-formed generator, `__getitem__ index`
succeeds exactly when `-length() ≤ index < length()` — Python subscription
also accepts negative indices, which address groups from the end; this is
the single amendment to the claim — and fails with an `IndexError`
otherwise; for `0 ≤ index < length()` it returns the batch tensor paired
with the ordered one-hot label rows of group `index`. -/
theorem getItem_spec (g : PyGenerator α β) (hwf : wellFormed g) (index : Int) :
    ((∃ r, getItem g index = Except.ok r) ↔
      (-(pyLen g : Int) ≤ index ∧ index < (pyLen g : Int))) ∧
    ((index < -(pyLen g : Int) ∨ (pyLen g : Int) ≤ index) →
      getItem g index = Except.error PyError.indexError) ∧
    (0 ≤ index → index < (pyLen g : Int) →
      ∃ bt, getItem g index = Except.ok (bt, g.label_groups.getD index.toNat [])) := by
  obtain ⟨hB, hLL, hgrp⟩ := hwf
  have herr : (index < -(pyLen g : Int) ∨ (pyLen g : Int) ≤ index) →
      getItem g index = Except.error PyError.indexError := by
    intro hout
    exact getItem_eq_error_left g index _ ((pyListGet_spec g.image_groups [] index).2.1 hout)
  have hokdir : (-(pyLen g : Int) ≤ index ∧ index < (pyLen g : Int)) →
      ∃ r, getItem g index = Except.ok r := by
    rintro ⟨h1, h2⟩
    obtain ⟨ig, hig, higm⟩ := (pyListGet_spec g.image_groups [] index).1 ⟨h1, h2⟩
    obtain ⟨lg, hlg, _⟩ := (pyListGet_spec g.label_groups [] index).1
      ⟨by rw [hLL]; exact h1, by rw [hLL]; exact h2⟩
    have higlen : ig.length = g.batch_size := hgrp ig higm
    obtain ⟨bt, hbt⟩ := construct_image_batch_isOk g.batch_size (load_images g ig)
      (by
        have : (load_images g ig).length = g.batch_size := by
          rw [load_images, List.length_map, higlen]
        intro hnil
        rw [hnil] at this
        simp at this
        omega)
      (by rw [load_images, List.length_map, higlen])
    exact ⟨(bt, lg), getItem_eq_ok g index ig lg bt hig hlg hbt⟩
  refine ⟨⟨?_, hokdir⟩, herr, ?_⟩
  · rintro ⟨r, hr⟩
    by_contra hnr
    rw [herr (by omega)] at hr
    cases hr
  · intro h0 h2
    have hig := (pyListGet_spec g.image_groups [] index).2.2 h0 h2
    have hlg := (pyListGet_spec g.label_groups [] index).2.2 h0 (by rw [hLL]; exact h2)
    have higm : g.image_groups.getD index.toNat [] ∈ g.image_groups := by
      have hb : index.toNat < g.image_groups.length := by
        unfold pyLen at h2
        omega
      rw [List.getD_eq_getElem _ _ hb]
      exact List.getElem_mem hb
    have higlen : (g.image_groups.getD index.toNat []).length = g.batch_size :=
      hgrp _ higm
    obtain ⟨bt, hbt⟩ := construct_image_batch_isOk g.batch_size
      (load_images g (g.image_groups.getD index.toNat []))
      (by
        have hl2 : (load_images g (g.image_groups.getD index.toNat [])).length =
            g.batch_size := by
          rw [load_images, List.length_map, higlen]
        intro hnil
        rw [hnil] at hl2
        simp at hl2
        omega)
      (by rw [load_images, List.length_map, higlen])
    exact ⟨bt, getItem_eq_ok g index _ _ bt hig hlg hbt⟩

/-- The generator that `__init__` builds over the example directory `fsW`
with batch size 2 and shuffling disabled (see `genW_eq_mkGenerator` below
for reachability). -/
def genW : PyGenerator Nat Nat :=
  { batch_size := 2
    shuffle_images := false
    image_min_side := 24
    decode := decW
    cv2resize := cvW
    classes := categories [1, 0]
    image_paths := [(1, 200), (1, 201), (1, 202), (0, 100), (0, 101)]
    image_labels := [(1, 200), (1, 201), (1, 202), (0, 100), (0, 101)].map
      (fun p => oneHot (categories [1, 0]) p.1)
    image_groups := create_image_groups
      [(1, 200), (1, 201), (1, 202), (0, 100), (0, 101)] default 2
    label_groups := create_image_groups
      ([(1, 200), (1, 201), (1, 202), (0, 100), (0, 101)].map
        (fun p => oneHot (categories [1, 0]) p.1)) [] 2 }

/-- Counterexample to Claim C7 as stated: `genW` is the generator actually
constructed over the example directory, and `__getitem__ (-1)` succeeds even
though `-1 < 0` — Python's negative indexing means "fails iff not
`0 ≤ index < length()`" is wrong. -/
theorem getItem_neg_index_counterexample :
    mkGenerator fsW decW cvW 2 false 24 = Except.ok genW ∧
    (getItem genW (-1)).isOk = true ∧ ¬(0 ≤ (-1 : Int)) := by
  refine ⟨rfl, rfl, by decide⟩

/-- Concrete check of Claim C7 (amended): `genW` is well formed and
`__getitem__ 1` succeeds. -/
theorem getItem_spec_witness :
    wellFormed genW ∧ (∃ r, getItem genW 1 = Except.ok r) := by
  have hwf : wellFormed genW := by
    refine ⟨by decide, by decide, ?_⟩
    intro gr hgr
    exact length_of_mem_create_image_groups _ _ _ gr hgr
  exact ⟨hwf, ((getItem_spec genW hwf 1).1).mpr ⟨by decide, by decide⟩⟩


/-- Claim C8: construction fails when the root path is missing
(`FileNotFoundError`), when the root directory is empty (sklearn's `fit`
raises `ValueError` on zero classes), and when the root has entries but
none is a directory (`NotADirectoryError` from `os.listdir` on a file); and
whenever construction succeeds the path and label lists have equal length,
so the defensive `assert` on line 47 never fires. -/
theorem load_image_paths_labels_spec [LinearOrder α] [DecidableEq α]
    (fs : FileSystem α β) :
    (fs.rootEntries = none →
      load_image_paths_labels fs = Except.error PyError.fileNotFoundError) ∧
    (fs.rootEntries = some [] →
      load_image_paths_labels fs = Except.error PyError.valueError) ∧
    (∀ cls, fs.rootEntries = some cls → cls ≠ [] →
      (∀ c ∈ cls, fs.subEntries c = none) →
      load_image_paths_labels fs = Except.error PyError.notADirectoryError) ∧
    (∀ r, load_image_paths_labels fs = Except.ok r →
      r.image_paths.length = r.image_labels.length) := by
  refine ⟨?_, ?_, ?_, ?_⟩
  · intro h
    simp [load_image_paths_labels, h]
  · intro h
    simp [load_image_paths_labels, h]
  · intro cls hfe hne hall
    obtain ⟨c, rest, rfl⟩ : ∃ c rest, cls = c :: rest := by
      cases cls with
      | nil => exact absurd rfl hne
      | cons c rest => exact ⟨c, rest, rfl⟩
    have hsub : fs.subEntries c = none := hall c (List.mem_cons_self c rest)
    simp [load_image_paths_labels, hfe, collectSamples, hsub]
  · intro r hok
    rw [load_labels_eq fs r hok, List.length_map]

/-- The root directory is missing entirely. -/
def fsMissing : FileSystem Nat Nat :=
  { rootEntries := none, subEntries := fun _ => none }

/-- The root directory exists but is empty. -/
def fsEmpty : FileSystem Nat Nat :=
  { rootEntries := some [], subEntries := fun _ => none }

/-- The root directory contains one entry that is a plain file. -/
def fsFilesOnly : FileSystem Nat Nat :=
  { rootEntries := some [5], subEntries := fun _ => none }

/-- The scan result over the example directory `fsW`. -/
def loadW : LoadResult Nat Nat :=
  { classes := categories [1, 0]
    image_paths := [(1, 200), (1, 201), (1, 202), (0, 100), (0, 101)]
    image_labels := [(1, 200), (1, 201), (1, 202), (0, 100), (0, 101)].map
      (fun p => oneHot (categories [1, 0]) p.1) }

/-- Concrete check of Claim C8 on all four branches: missing root, empty
root, file-only root, and a successful scan with equal path/label counts. -/
theorem load_image_paths_labels_spec_witness :
    fsMissing.rootEntries = none ∧
    load_image_paths_labels fsMissing = Except.error PyError.fileNotFoundError ∧
    load_image_paths_labels fsEmpty = Except.error PyError.valueError ∧
    load_image_paths_labels fsFilesOnly = Except.error PyError.notADirectoryError ∧
    load_image_paths_labels fsW = Except.ok loadW ∧
    loadW.image_paths.length = loadW.image_labels.length := by
  refine ⟨rfl, (load_image_paths_labels_spec fsMissing).1 rfl,
    (load_image_paths_labels_spec fsEmpty).2.1 rfl,
    (load_image_paths_labels_spec fsFilesOnly).2.2.1 [5] rfl (by decide)
      (fun c _ => rfl),
    rfl,
    (load_image_paths_labels_spec fsW).2.2.2 loadW rfl⟩

/-- Claim C9: `__getitem__` mutates no generator state — the post-call
object state is the receiver unchanged, so a repeated call on the same
index returns the same result. -/
theorem getItemSt_spec (g : PyGenerator α β) (index : Int)
    (res : BatchTensor × List (List ℚ)) (g2 : PyGenerator α β)
    (hok : getItemSt g index = Except.ok (res, g2)) :
    g2 = g ∧ getItemSt g2 index = getItemSt g index ∧
    getItem g2 index = Except.ok res := by
  unfold getItemSt at hok
  rcases hgi : getItem g index with e | r
  · rw [hgi] at hok
    cases hok
  · rw [hgi] at hok
    dsimp only at hok
    cases hok
    exact ⟨rfl, rfl, hgi⟩

/-- Concrete check of Claim C9: calling `__getitem__ 0` on the example
generator leaves its state equal to the original. -/
theorem getItemSt_spec_witness :
    ∃ res g2, getItemSt genW 0 = Except.ok (res, g2) ∧ g2 = genW := by
  rcases hok : getItemSt genW 0 with e | ⟨res, g2⟩
  · have hisok : (getItemSt genW 0).isOk = true := rfl
    rw [hok] at hisok
    cases hisok
  · exact ⟨res, g2, rfl, (getItemSt_spec genW 0 res g2 hok).1⟩

/-- Claim C10: the one-hot encoding order is the sorted order of the class
directory names, independent of enumeration order: the fitted category
list is sorted and duplicate-free and contains exactly the scanned names
(so the name at hot index `k` is the `k`-th name in sorted order), and two
listings of the same names in any order produce the same category list and
identical one-hot vectors for every class. -/
theorem categories_sorted_spec [LinearOrder α] [DecidableEq α]
    (cls1 cls2 : List α) (hperm : cls1.Perm cls2) :
    List.Sorted (· ≤ ·) (categories cls1) ∧
    (categories cls1).Nodup ∧
    (∀ c, c ∈ categories cls1 ↔ c ∈ cls1) ∧
    categories cls1 = categories cls2 ∧
    (∀ c, oneHot (categories cls1) c = oneHot (categories cls2) c) := by
  have hsorted1 : List.Sorted (· ≤ ·) (categories cls1) :=
    List.sorted_insertionSort _ _
  have heq : categories cls1 = categories cls2 := by
    refine List.eq_of_perm_of_sorted ?_ hsorted1 (List.sorted_insertionSort _ _)
    exact ((List.perm_insertionSort _ cls1.dedup).trans hperm.dedup).trans
      (List.perm_insertionSort _ cls2.dedup).symm
  exact ⟨hsorted1, categories_nodup cls1, mem_categories cls1, heq,
    fun c => by rw [heq]⟩

/-- Concrete check of Claim C10: the listings `[2, 1]` and `[1, 2]` are
permutations of each other and produce the same sorted category list. -/
theorem categories_sorted_spec_witness :
    ([2, 1] : List Nat).Perm [1, 2] ∧
    categories ([2, 1] : List Nat) = categories [1, 2] ∧
    List.Sorted (· ≤ ·) (categories ([2, 1] : List Nat)) := by
  have h := categories_sorted_spec ([2, 1] : List Nat) [1, 2] (by decide)
  exact ⟨by decide, h.2.2.2.1, h.1⟩

end Raytune
